import Mathlib

/-!
Shallow embedding of the Mohano event-broker core (`server/index.mjs`):
the per-workspace bounded circular event store, the token-scoped workspace
registry with time-based eviction, the ingestion/sequencer path, broadcast
fan-out, the filtered query path, and the workspace-creation rate limiter.

Time is modelled as `Nat` milliseconds (`Date.now()`); ISO timestamps as
`String` (`new Date().toISOString()` is passed in as a parameter).
JavaScript string truthiness (`""` is falsy) is modelled explicitly by
`jsOr`.  JavaScript `Map`s are modelled as insertion-ordered association
lists, `Set`s of WebSocket clients as duplicate-free lists of client ids.
-/

namespace Mohano

/-- JS `a || b` on an optional string: `null`/`undefined` and the empty
string are falsy, so they fall through to the default. -/
def jsOr (v : Option String) (d : String) : String :=
  match v with
  | some s => if s = "" then d else s
  | none => d

/-- JS `t.startsWith(p)`, modelled over the character lists of the two
strings. -/
def strStartsWith (t p : String) : Bool := p.data.isPrefixOf t.data

/-! ## Circular buffer (`class CircularBuffer`, index.mjs lines 21-46)

`buf` models the JS backing array of length `capacity`: a function from
index to `Option α`, where `none` is an unfilled slot (`new Array(capacity)`
starts all-holes). -/

structure CircularBuffer (α : Type) where
  capacity : Nat
  buf : Nat → Option α
  head : Nat
  count : Nat

/-- `new CircularBuffer(capacity)`. -/
def CircularBuffer.empty (α : Type) (capacity : Nat) : CircularBuffer α :=
  { capacity := capacity, buf := fun _ => none, head := 0, count := 0 }

/-- `push(item)`: write at `head`, advance `head` modulo `capacity`,
saturate `count` at `capacity`. -/
def CircularBuffer.push (cb : CircularBuffer α) (item : α) : CircularBuffer α :=
  { cb with
    buf := fun i => if i = cb.head then some item else cb.buf i,
    head := (cb.head + 1) % cb.capacity,
    count := if cb.count < cb.capacity then cb.count + 1 else cb.count }

/-- `toArray()`: empty, unwrapped (`buf.slice(0, count)`) or wrapped
(`[...buf.slice(head), ...buf.slice(0, head)]`) snapshot, in insertion
order.  `reduceOption` drops holes, which never occur in the sliced
region of a reachable buffer. -/
def CircularBuffer.toArray (cb : CircularBuffer α) : List α :=
  if cb.count = 0 then []
  else if cb.count < cb.capacity then
    ((List.range cb.count).map cb.buf).reduceOption
  else
    (((List.range (cb.capacity - cb.head)).map (fun j => cb.buf (cb.head + j))) ++
      ((List.range cb.head).map cb.buf)).reduceOption

/-- Fold a whole list of pushes, oldest first. -/
def CircularBuffer.pushAll (cb : CircularBuffer α) (l : List α) : CircularBuffer α :=
  l.foldl CircularBuffer.push cb

/-! ## Events

The broker treats the body as an open record and only recognizes a few
fields.  `RawEvent` is the parsed request body: recognized optional
fields, a producer-supplied `_seq` field if any (`raw_seq`), and the
remaining payload fields (`extra`), which the broker stores untouched.
`StoredEvent` is the object built at ingestion by
`{...body, timestamp: body.timestamp || now, _seq: ++workspace.seq}`:
the spread copies every body field and then overwrites `timestamp` and
`_seq`, so the stored record has a broker-controlled `timestamp` and
`seq` and no slot for a producer `_seq`. -/

structure RawEvent where
  session_id : Option String
  agent_id : Option String
  agent_type : Option String
  agent_name : Option String
  teammate_name : Option String
  team_name : Option String
  tool_name : Option String
  hook_event_name : Option String
  timestamp : Option String
  raw_seq : Option Nat
  extra : List (String × String)
deriving DecidableEq

structure StoredEvent where
  session_id : Option String
  agent_id : Option String
  agent_type : Option String
  agent_name : Option String
  teammate_name : Option String
  team_name : Option String
  tool_name : Option String
  hook_event_name : Option String
  timestamp : String
  seq : Nat
  extra : List (String × String)
deriving DecidableEq

/-- Event construction in the POST /api/events handler (lines 362-366):
spread of the body with `timestamp` and `_seq` overwritten. -/
def mkStoredEvent (b : RawEvent) (nowIso : String) (newSeq : Nat) : StoredEvent :=
  { session_id := b.session_id
    agent_id := b.agent_id
    agent_type := b.agent_type
    agent_name := b.agent_name
    teammate_name := b.teammate_name
    team_name := b.team_name
    tool_name := b.tool_name
    hook_event_name := b.hook_event_name
    timestamp := jsOr b.timestamp nowIso
    seq := newSeq
    extra := b.extra }

/-! ## Association lists (JS `Map`: insertion-ordered, set overwrites in
place, lookup by key) -/

def findAssoc {α : Type} (l : List (String × α)) (k : String) : Option α :=
  match l with
  | [] => none
  | (k', v) :: r => if k' = k then some v else findAssoc r k

def setAssoc {α : Type} (l : List (String × α)) (k : String) (v : α) : List (String × α) :=
  match l with
  | [] => [(k, v)]
  | (k', v') :: r => if k' = k then (k, v) :: r else (k', v') :: setAssoc r k v

/-! ## Per-workspace state (lines 50-64) -/

structure AgentEntry where
  agent_id : String
  agent_type : Option String
  agent_name : Option String
  session_id : String
  teammate_name : Option String
  team_name : Option String
  last_seen : String
deriving DecidableEq

structure Workspace where
  events : CircularBuffer StoredEvent
  agents : List (String × AgentEntry)
  wsClients : List Nat
  seq : Nat
  lastActivity : Nat
  createdAt : Nat

def MAX_EVENTS : Nat := 2000

/-- `createWorkspace()` (lines 52-61). -/
def createWorkspace (now : Nat) : Workspace :=
  { events := CircularBuffer.empty StoredEvent MAX_EVENTS
    agents := []
    wsClients := []
    seq := 0
    lastActivity := now
    createdAt := now }

/-- `trackAgent(workspace, event)` (lines 123-134): overwrite the agent
directory entry keyed by session and agent identity. -/
def trackAgent (agents : List (String × AgentEntry)) (e : StoredEvent) :
    List (String × AgentEntry) :=
  let key := jsOr e.session_id "" ++ ":" ++ jsOr e.agent_id (jsOr e.agent_name "default")
  setAssoc agents key
    { agent_id := jsOr e.agent_id (jsOr e.session_id "")
      agent_type := e.agent_type
      agent_name := e.agent_name
      session_id := jsOr e.session_id ""
      teammate_name := e.teammate_name
      team_name := e.team_name
      last_seen := e.timestamp }

/-! ## Broker state: registry, default workspace, rate limiter -/

structure RateLimit where
  count : Nat
  resetAt : Nat
deriving DecidableEq

structure BrokerState where
  workspaces : List (String × Workspace)
  globalWorkspace : Workspace
  createRateLimit : RateLimit

/-- Identity of a resolved workspace: the default (global) workspace or a
token-registered one. -/
inductive WsKey
  | global
  | tok (t : String)
deriving DecidableEq

def wsAt (s : BrokerState) : WsKey → Option Workspace
  | WsKey.global => some s.globalWorkspace
  | WsKey.tok t => findAssoc s.workspaces t

def updWs (s : BrokerState) (k : WsKey) (w : Workspace) : BrokerState :=
  match k with
  | WsKey.global => { s with globalWorkspace := w }
  | WsKey.tok t => { s with workspaces := setAssoc s.workspaces t w }

/-- `getWorkspace(token)` (lines 66-73): registry lookup that refreshes
`lastActivity` on hit.  Returns the (touched) workspace and the updated
state. -/
def getWorkspace (s : BrokerState) (token : String) (now : Nat) :
    Option Workspace × BrokerState :=
  if token = "" then (none, s)
  else
    match findAssoc s.workspaces token with
    | some ws =>
      let ws' := { ws with lastActivity := now }
      (some ws', { s with workspaces := setAssoc s.workspaces token ws' })
    | none => (none, s)

/-- `resolveWorkspace(token)` (lines 75-84): `moh_`-shaped tokens route to
their registered workspace or fail; everything else routes to the default
workspace. -/
def resolveWorkspace (s : BrokerState) (token : Option String) (now : Nat) :
    Option (WsKey × Workspace) × BrokerState :=
  match token with
  | some t =>
    if t ≠ "" ∧ strStartsWith t "moh_" then
      match getWorkspace s t now with
      | (some ws, s') => (some (WsKey.tok t, ws), s')
      | (none, s') => (none, s')
    else (some (WsKey.global, s.globalWorkspace), s)
  | none => (some (WsKey.global, s.globalWorkspace), s)

/-! ## Workspace cleanup (lines 88-99) -/

def WORKSPACE_TTL_MS : Nat := 24 * 60 * 60 * 1000

/-- One close signal sent to a subscriber: client id, close code, reason. -/
structure CloseSignal where
  client : Nat
  code : Nat
  reason : String
deriving DecidableEq

/-- `cleanupWorkspaces()` body: walk the registry, close every subscriber
of an expired workspace with `(4002, 'Workspace expired')` and drop the
entry.  Returns the surviving registry and the close signals issued. -/
def cleanupWorkspaces (l : List (String × Workspace)) (now : Nat) :
    List (String × Workspace) × List CloseSignal :=
  match l with
  | [] => ([], [])
  | (t, ws) :: r =>
    let (r', closes) := cleanupWorkspaces r now
    if now - ws.lastActivity > WORKSPACE_TTL_MS then
      (r', ws.wsClients.map (fun c => ⟨c, 4002, "Workspace expired"⟩) ++ closes)
    else ((t, ws) :: r', closes)

/-- The periodic sweep at broker level: only the registry map is touched;
the default workspace is not part of the registry. -/
def sweep (s : BrokerState) (now : Nat) : BrokerState × List CloseSignal :=
  let (l', closes) := cleanupWorkspaces s.workspaces now
  ({ s with workspaces := l' }, closes)

/-! ## Rate limiter for workspace creation (lines 106-119) -/

def RATE_LIMIT_WINDOW_MS : Nat := 60 * 1000
def RATE_LIMIT_MAX : Nat := 20

/-- `checkCreateRateLimit()`: zero the counter when the window expired,
then admit iff the counter is below the quota, counting admissions. -/
def checkCreateRateLimit (rl : RateLimit) (now : Nat) : Bool × RateLimit :=
  let rl' := if now > rl.resetAt then { count := 0, resetAt := now + RATE_LIMIT_WINDOW_MS } else rl
  if rl'.count ≥ RATE_LIMIT_MAX then (false, rl')
  else (true, { rl' with count := rl'.count + 1 })

/-- A run of creation-limit checks at the given times, left to right. -/
def runLimiter (rl : RateLimit) (times : List Nat) : List Bool × RateLimit :=
  match times with
  | [] => ([], rl)
  | t :: ts =>
    let (b, rl') := checkCreateRateLimit rl t
    let (bs, rl'') := runLimiter rl' ts
    (b :: bs, rl'')

/-! ## Broadcast fan-out (lines 136-145)

`dead` is the set of client ids whose `send` throws (connection gone):
those are removed from the subscriber set, the others receive the event. -/

def broadcastToWorkspace (dead : List Nat) (clients : List Nat) (e : StoredEvent) :
    List Nat × List (Nat × StoredEvent) :=
  match clients with
  | [] => ([], [])
  | c :: r =>
    let (r', ds) := broadcastToWorkspace dead r e
    if c ∈ dead then (r', ds) else (c :: r', (c, e) :: ds)

/-! ## HTTP handlers -/

inductive Response
  | ok (seq : Nat)
  | invalidPayload
  | invalidWorkspace
  | rateLimited
  | created (token : String)
  | queryResult (events : List StoredEvent)
  | agentsResult (agents : List AgentEntry)
deriving DecidableEq

/-- The ingestion core of the POST /api/events handler (lines 362-368):
stamp timestamp, assign `_seq = ++workspace.seq`, append to the store,
update the agent directory.  Returns the new workspace state and the
stored event. -/
def wsIngest (ws : Workspace) (b : RawEvent) (nowIso : String) :
    Workspace × StoredEvent :=
  let e := mkStoredEvent b nowIso (ws.seq + 1)
  ({ ws with
      seq := ws.seq + 1
      events := ws.events.push e
      agents := trackAgent ws.agents e }, e)

/-- POST /api/events (lines 350-377).  `body = none` models a request
body that `JSON.parse` rejects: the whole handler body is inside the
`try`, so nothing runs before the `catch` answers 400.  Returns the
response, the new broker state, and the fan-out deliveries
`(client, event)`. -/
def postEvent (s : BrokerState) (dead : List Nat) (token : Option String)
    (body : Option RawEvent) (now : Nat) (nowIso : String) :
    Response × BrokerState × List (Nat × StoredEvent) :=
  match body with
  | none => (Response.invalidPayload, s, [])
  | some b =>
    match resolveWorkspace s token now with
    | (none, s') => (Response.invalidWorkspace, s', [])
    | (some (k, ws), s') =>
      let (ws', e) := wsIngest ws b nowIso
      let (clients', deliveries) := broadcastToWorkspace dead ws'.wsClients e
      (Response.ok e.seq, updWs s' k { ws' with wsClients := clients' }, deliveries)

/-- Query parameters of GET /api/events (lines 392-397). -/
structure Query where
  session_id : Option String
  agent_type : Option String
  tool_name : Option String
  hook_event_name : Option String
  since_seq : Option Nat
  limit : Option Nat
deriving DecidableEq

def Query.empty : Query := ⟨none, none, none, none, none, none⟩

/-- The conjunctive equality/cursor filters (lines 399-406), applied in
source order to the snapshot. -/
def applyFilters (evs : List StoredEvent) (q : Query) : List StoredEvent :=
  let r := evs
  let r := match q.session_id with
    | some v => r.filter (fun e => e.session_id = some v)
    | none => r
  let r := match q.agent_type with
    | some v => r.filter (fun e => e.agent_type = some v)
    | none => r
  let r := match q.tool_name with
    | some v => r.filter (fun e => e.tool_name = some v)
    | none => r
  let r := match q.hook_event_name with
    | some v => r.filter (fun e => e.hook_event_name = some v)
    | none => r
  match q.since_seq with
  | some k => r.filter (fun e => k < e.seq)
  | none => r

/-- Filters followed by the result-count cap (lines 407-410):
`result.slice(-n)` keeps the last `n` elements when `n > 0`. -/
def queryEvents (evs : List StoredEvent) (q : Query) : List StoredEvent :=
  let r := applyFilters evs q
  match q.limit with
  | some n => if 0 < n then r.drop (r.length - n) else r
  | none => r

/-- GET /api/events (lines 380-415). -/
def getEvents (s : BrokerState) (token : Option String) (q : Query) (now : Nat) :
    Response × BrokerState :=
  match resolveWorkspace s token now with
  | (none, s') => (Response.invalidWorkspace, s')
  | (some (_, ws), s') => (Response.queryResult (queryEvents ws.events.toArray q), s')

/-- GET /api/agents (lines 418-431). -/
def getAgents (s : BrokerState) (token : Option String) (now : Nat) :
    Response × BrokerState :=
  match resolveWorkspace s token now with
  | (none, s') => (Response.invalidWorkspace, s')
  | (some (_, ws), s') => (Response.agentsResult (ws.agents.map Prod.snd), s')

/-- POST /api/workspaces (lines 311-328): rate-limit check, then register
a fresh workspace under the (randomly generated, here parametric) token. -/
def postWorkspaces (s : BrokerState) (newToken : String) (now : Nat) :
    Response × BrokerState :=
  let (ok, rl') := checkCreateRateLimit s.createRateLimit now
  if ok then
    (Response.created newToken,
      { s with createRateLimit := rl',
               workspaces := setAssoc s.workspaces newToken (createWorkspace now) })
  else (Response.rateLimited, { s with createRateLimit := rl' })

/-- WebSocket upgrade (lines 452-474): resolve the workspace, reject on
failure, otherwise admit the client into that workspace's subscriber set
(JS `Set.add`: append if absent). -/
def subscribe (s : BrokerState) (token : Option String) (c : Nat) (now : Nat) :
    Option WsKey × BrokerState :=
  match resolveWorkspace s token now with
  | (none, s') => (none, s')
  | (some (k, ws), s') =>
    (some k, updWs s' k
      { ws with wsClients := if c ∈ ws.wsClients then ws.wsClients else ws.wsClients ++ [c] })

/-- A run of ingestions into one workspace, oldest first; each entry is
the raw body paired with the broker clock reading at that ingestion.
Returns the final workspace and the stored events in order. -/
def ingestList (ws : Workspace) (bs : List (RawEvent × String)) :
    Workspace × List StoredEvent :=
  match bs with
  | [] => (ws, [])
  | (b, iso) :: r =>
    let (ws', e) := wsIngest ws b iso
    let (ws'', es) := ingestList ws' r
    (ws'', e :: es)

/-! ## Helper lemmas on association lists and resolution -/

theorem findAssoc_setAssoc_self {α : Type} (l : List (String × α)) (k : String) (v : α) :
    findAssoc (setAssoc l k v) k = some v := by
  induction l with
  | nil => simp [setAssoc, findAssoc]
  | cons p r ih =>
    obtain ⟨k', v'⟩ := p
    by_cases h : k' = k
    · simp [setAssoc, h, findAssoc]
    · simp [setAssoc, h, findAssoc, ih]

theorem findAssoc_setAssoc_ne {α : Type} (l : List (String × α)) (k k' : String) (v : α)
    (h : k' ≠ k) : findAssoc (setAssoc l k v) k' = findAssoc l k' := by
  induction l with
  | nil => simp [setAssoc, findAssoc, Ne.symm h]
  | cons p r ih =>
    obtain ⟨k₀, v₀⟩ := p
    by_cases h0 : k₀ = k
    · subst h0
      simp [setAssoc, findAssoc, Ne.symm h]
    · by_cases h1 : k₀ = k'
      · simp [setAssoc, h0, findAssoc, h1, h]
      · simp [setAssoc, h0, findAssoc, h1, ih]

theorem wsAt_updWs_self (s : BrokerState) (k : WsKey) (w : Workspace) :
    wsAt (updWs s k w) k = some w := by
  cases k with
  | global => rfl
  | tok t => simp [updWs, wsAt, findAssoc_setAssoc_self]

theorem wsAt_updWs_other (s : BrokerState) (k k' : WsKey) (w : Workspace) (h : k' ≠ k) :
    wsAt (updWs s k w) k' = wsAt s k' := by
  cases k with
  | global =>
    cases k' with
    | global => exact absurd rfl h
    | tok t' => rfl
  | tok t =>
    cases k' with
    | global => rfl
    | tok t' =>
      have ht : t' ≠ t := fun hh => h (by rw [hh])
      simp [updWs, wsAt, findAssoc_setAssoc_ne _ _ _ _ ht]

theorem strStartsWith_moh_ne_empty (t : String) (h : strStartsWith t "moh_" = true) :
    t ≠ "" := by
  rintro rfl
  exact absurd h (by decide)

/-- Resolution of a registered `moh_` token: routes to that workspace,
refreshing its `lastActivity`. -/
theorem resolveWorkspace_moh_found (s : BrokerState) (t : String) (now : Nat) (ws : Workspace)
    (hmoh : strStartsWith t "moh_" = true) (hfind : findAssoc s.workspaces t = some ws) :
    resolveWorkspace s (some t) now =
      (some (WsKey.tok t, { ws with lastActivity := now }),
       { s with workspaces := setAssoc s.workspaces t { ws with lastActivity := now } }) := by
  have hne := strStartsWith_moh_ne_empty t hmoh
  simp [resolveWorkspace, getWorkspace, hne, hmoh, hfind]

/-- Successful resolution leaves every other workspace untouched. -/
theorem resolveWorkspace_preserves_other (s : BrokerState) (token : Option String)
    (now : Nat) (k : WsKey) (ws : Workspace) (s' : BrokerState)
    (h : resolveWorkspace s token now = (some (k, ws), s')) :
    ∀ k', k' ≠ k → wsAt s' k' = wsAt s k' := by
  intro k' hk'
  cases token with
  | none =>
    simp only [resolveWorkspace, Prod.mk.injEq, Option.some.injEq] at h
    obtain ⟨⟨hk, hw⟩, hs⟩ := h
    rw [← hs]
  | some t =>
    simp only [resolveWorkspace] at h
    split at h
    · rename_i hcond
      rw [getWorkspace] at h
      rw [if_neg hcond.1] at h
      rcases hfind : findAssoc s.workspaces t with _ | ws0 <;> rw [hfind] at h
      · simp at h
      · simp only [Prod.mk.injEq, Option.some.injEq] at h
        obtain ⟨⟨hk, _⟩, hs⟩ := h
        subst hs
        cases k' with
        | global => simp [wsAt]
        | tok t' =>
          have ht : t' ≠ t := by
            intro hh
            subst hh
            exact hk' (by rw [← hk])
          simp [wsAt, findAssoc_setAssoc_ne _ _ _ _ ht]
    · simp only [Prod.mk.injEq, Option.some.injEq] at h
      obtain ⟨_, hs⟩ := h
      subst hs
      rfl

/-- After successful resolution, the returned workspace is what the
updated state holds at the returned key. -/
theorem resolveWorkspace_wsAt (s : BrokerState) (token : Option String)
    (now : Nat) (k : WsKey) (ws : Workspace) (s' : BrokerState)
    (h : resolveWorkspace s token now = (some (k, ws), s')) :
    wsAt s' k = some ws := by
  cases token with
  | none =>
    simp only [resolveWorkspace, Prod.mk.injEq, Option.some.injEq] at h
    obtain ⟨⟨hk1, hk2⟩, hs⟩ := h
    subst hs
    rw [← hk1, ← hk2]
    rfl
  | some t =>
    simp only [resolveWorkspace] at h
    split at h
    · rename_i hcond
      rw [getWorkspace] at h
      rw [if_neg hcond.1] at h
      rcases hfind : findAssoc s.workspaces t with _ | ws0 <;> rw [hfind] at h
      · simp at h
      · simp only [Prod.mk.injEq, Option.some.injEq] at h
        obtain ⟨⟨hk, hw⟩, hs⟩ := h
        subst hs
        rw [← hk, ← hw]
        simp [wsAt, findAssoc_setAssoc_self]
    · simp only [Prod.mk.injEq, Option.some.injEq] at h
      obtain ⟨⟨hk1, hk2⟩, hs⟩ := h
      subst hs
      rw [← hk1, ← hk2]
      rfl

/-- Shape of a successful POST /api/events: sequencing, store append and
agent tracking applied to the resolved workspace, fan-out to its
subscriber set. -/
theorem postEvent_state (s : BrokerState) (dead : List Nat) (token : Option String)
    (b : RawEvent) (now : Nat) (iso : String) (k : WsKey) (ws : Workspace) (s' : BrokerState)
    (h : resolveWorkspace s token now = (some (k, ws), s')) :
    postEvent s dead token (some b) now iso =
      (Response.ok (wsIngest ws b iso).2.seq,
       updWs s' k
         { (wsIngest ws b iso).1 with
           wsClients :=
             (broadcastToWorkspace dead (wsIngest ws b iso).1.wsClients (wsIngest ws b iso).2).1 },
       (broadcastToWorkspace dead (wsIngest ws b iso).1.wsClients (wsIngest ws b iso).2).2) := by
  simp only [postEvent]
  rw [h]

/-! ## Sample states used by the witnesses -/

def sampleRaw : RawEvent :=
  { session_id := none, agent_id := none, agent_type := none, agent_name := none,
    teammate_name := none, team_name := none, tool_name := none, hook_event_name := none,
    timestamp := none, raw_seq := none, extra := [] }

def w0 : Workspace := createWorkspace 0

def s0 : BrokerState :=
  { workspaces := [("moh_a", w0)], globalWorkspace := w0, createRateLimit := ⟨0, 0⟩ }

/-! ## C5 -/

/-- C5: an ingestion whose body cannot be parsed fails with
`InvalidPayload` (the 400 answer of the handler's catch), returns the
broker state unchanged — in particular every workspace's event count and
sequence counter are untouched — and delivers nothing to any subscriber. -/
theorem postEvent_invalidPayload (s : BrokerState) (dead : List Nat) (token : Option String)
    (now : Nat) (iso : String) :
    postEvent s dead token none now iso = (Response.invalidPayload, s, []) := rfl

/-! ## C6 -/

/-- C6: workspace resolution: an absent token or one not of the `moh_`
workspace-token shape resolves to the default workspace; a `moh_`-shaped
token resolves to its registered workspace when present, and otherwise
fails (`InvalidWorkspace`), never falling back to the default. -/
theorem resolveWorkspace_rules (s : BrokerState) (now : Nat) (t : String) (ws : Workspace) :
    (resolveWorkspace s none now = (some (WsKey.global, s.globalWorkspace), s)) ∧
    (¬(t ≠ "" ∧ strStartsWith t "moh_" = true) →
      resolveWorkspace s (some t) now = (some (WsKey.global, s.globalWorkspace), s)) ∧
    (strStartsWith t "moh_" = true → findAssoc s.workspaces t = some ws →
      resolveWorkspace s (some t) now =
        (some (WsKey.tok t, { ws with lastActivity := now }),
         { s with workspaces := setAssoc s.workspaces t { ws with lastActivity := now } })) ∧
    (strStartsWith t "moh_" = true → findAssoc s.workspaces t = none →
      resolveWorkspace s (some t) now = (none, s)) := by
  refine ⟨rfl, ?_, ?_, ?_⟩
  · intro h
    simp only [resolveWorkspace]
    rw [if_neg h]
  · intro hmoh hfind
    exact resolveWorkspace_moh_found s t now ws hmoh hfind
  · intro hmoh hfind
    have hne := strStartsWith_moh_ne_empty t hmoh
    simp [resolveWorkspace, getWorkspace, hne, hmoh, hfind]

/-- Witness for C6 at concrete inputs: the registered token `moh_a`
resolves to its workspace with refreshed activity, and an unregistered
`moh_`-shaped token fails. -/
theorem resolveWorkspace_rules_witness :
    strStartsWith "moh_a" "moh_" = true ∧
    findAssoc s0.workspaces "moh_a" = some w0 ∧
    resolveWorkspace s0 (some "moh_a") 5 =
      (some (WsKey.tok "moh_a", { w0 with lastActivity := 5 }),
       { s0 with workspaces := setAssoc s0.workspaces "moh_a" { w0 with lastActivity := 5 } }) ∧
    resolveWorkspace s0 (some "moh_z") 5 = (none, s0) :=
  ⟨by decide, rfl,
    (resolveWorkspace_rules s0 5 "moh_a" w0).2.2.1 (by decide) rfl,
    (resolveWorkspace_rules s0 5 "moh_z" w0).2.2.2 (by decide) rfl⟩

/-! ## C9 (amended) -/

/-- C9 (amended): every operation that resolves a registered `moh_`-token
workspace (ingestion, event query, agent listing, subscription) refreshes
that workspace's `lastActivity` to the current time as part of the
resolution.  (Resolutions to the default workspace do not refresh its
`lastActivity`; see the counterexample.) -/
theorem touch_on_resolve (s : BrokerState) (dead : List Nat) (t : String) (ws : Workspace)
    (b : RawEvent) (q : Query) (c now : Nat) (iso : String)
    (hmoh : strStartsWith t "moh_" = true) (hfind : findAssoc s.workspaces t = some ws) :
    ((findAssoc (postEvent s dead (some t) (some b) now iso).2.1.workspaces t).map
       Workspace.lastActivity = some now) ∧
    (findAssoc (getEvents s (some t) q now).2.workspaces t =
       some { ws with lastActivity := now }) ∧
    (findAssoc (getAgents s (some t) now).2.workspaces t =
       some { ws with lastActivity := now }) ∧
    ((findAssoc (subscribe s (some t) c now).2.workspaces t).map
       Workspace.lastActivity = some now) := by
  have hres := resolveWorkspace_moh_found s t now ws hmoh hfind
  refine ⟨?_, ?_, ?_, ?_⟩
  · rw [postEvent_state s dead (some t) b now iso _ _ _ hres]
    simp [updWs, findAssoc_setAssoc_self, wsIngest]
  · simp [getEvents, hres, findAssoc_setAssoc_self]
  · simp [getAgents, hres, findAssoc_setAssoc_self]
  · simp only [subscribe]
    rw [hres]
    simp [updWs, findAssoc_setAssoc_self]

/-- Witness for C9 at concrete inputs. -/
theorem touch_on_resolve_witness :
    strStartsWith "moh_a" "moh_" = true ∧
    findAssoc (getEvents s0 (some "moh_a") Query.empty 5).2.workspaces "moh_a" =
      some { w0 with lastActivity := 5 } :=
  ⟨by decide,
    (touch_on_resolve s0 [] "moh_a" w0 sampleRaw Query.empty 0 5 "iso" (by decide) rfl).2.1⟩

def s9 : BrokerState :=
  { workspaces := [], globalWorkspace := createWorkspace 0, createRateLimit := ⟨0, 0⟩ }

/-- C9 counterexample: an event query resolving the default workspace at
time 5 leaves its `lastActivity` at 0 — the resolution of the default
workspace does not refresh last-activity, contrary to the claim read over
all workspaces. -/
theorem touch_on_resolve_counterexample :
    (getEvents s9 none Query.empty 5).2.globalWorkspace.lastActivity = 0 ∧ (0 : Nat) ≠ 5 :=
  ⟨rfl, by decide⟩

/-! ## C10 -/

/-- C10: the broker-assigned `_seq` of the stored event is the incremented
per-workspace counter; a producer-supplied `_seq` field is overwritten by
the spread, never appears in the stored event, and influences neither the
stored event, the broker state, the response, nor the deliveries. -/
theorem seq_overwrite (s : BrokerState) (dead : List Nat) (token : Option String)
    (b : RawEvent) (v : Option Nat) (ws : Workspace) (now : Nat) (iso : String) :
    postEvent s dead token (some { b with raw_seq := v }) now iso =
      postEvent s dead token (some b) now iso ∧
    wsIngest ws { b with raw_seq := v } iso = wsIngest ws b iso ∧
    (wsIngest ws b iso).2.seq = ws.seq + 1 ∧
    (wsIngest ws b iso).1.seq = ws.seq + 1 :=
  ⟨rfl, rfl, rfl, rfl⟩

/-! ## C7 -/

/-- Structure of one cleanup pass over the registry list. -/
theorem cleanupWorkspaces_spec (l : List (String × Workspace)) (now : Nat) :
    ((cleanupWorkspaces l now).1 =
       l.filter (fun p => now - p.2.lastActivity ≤ WORKSPACE_TTL_MS)) ∧
    (∀ t ws, (t, ws) ∈ l → now - ws.lastActivity > WORKSPACE_TTL_MS →
       ∀ c ∈ ws.wsClients,
         CloseSignal.mk c 4002 "Workspace expired" ∈ (cleanupWorkspaces l now).2) := by
  induction l with
  | nil => exact ⟨rfl, by simp⟩
  | cons p r ih =>
    obtain ⟨t, ws⟩ := p
    obtain ⟨r', closes, hrec⟩ : ∃ r' closes, cleanupWorkspaces r now = (r', closes) :=
      ⟨_, _, rfl⟩
    have ih1 : r' = r.filter (fun p => now - p.2.lastActivity ≤ WORKSPACE_TTL_MS) := by
      have h := ih.1
      rw [hrec] at h
      exact h
    have ih2 : ∀ t' ws', (t', ws') ∈ r → now - ws'.lastActivity > WORKSPACE_TTL_MS →
        ∀ c ∈ ws'.wsClients, CloseSignal.mk c 4002 "Workspace expired" ∈ closes := by
      intro t' ws' hmem hexp' c hc
      have h := ih.2 t' ws' hmem hexp' c hc
      rw [hrec] at h
      exact h
    by_cases hexp : now - ws.lastActivity > WORKSPACE_TTL_MS
    · have hcl : cleanupWorkspaces ((t, ws) :: r) now =
          (r', ws.wsClients.map (fun c => ⟨c, 4002, "Workspace expired"⟩) ++ closes) := by
        simp [cleanupWorkspaces, hrec, hexp]
      constructor
      · rw [hcl]
        rw [List.filter_cons, if_neg (by simp only [decide_eq_true_eq]; omega)]
        exact ih1
      · intro t' ws' hmem hexp' c hc
        rw [hcl]
        rcases List.mem_cons.mp hmem with heq | hmem'
        · obtain ⟨ht, hw⟩ := Prod.mk.injEq .. ▸ heq
          subst hw
          exact List.mem_append_left _ (List.mem_map.mpr ⟨c, hc, rfl⟩)
        · exact List.mem_append_right _ (ih2 t' ws' hmem' hexp' c hc)
    · have hcl : cleanupWorkspaces ((t, ws) :: r) now = ((t, ws) :: r', closes) := by
        simp [cleanupWorkspaces, hrec, hexp]
      constructor
      · rw [hcl]
        rw [List.filter_cons, if_pos (by simp only [decide_eq_true_eq]; omega)]
        rw [ih1]
      · intro t' ws' hmem hexp' c hc
        rw [hcl]
        rcases List.mem_cons.mp hmem with heq | hmem'
        · obtain ⟨ht, hw⟩ := Prod.mk.injEq .. ▸ heq
          subst hw
          omega
        · exact ih2 t' ws' hmem' hexp' c hc

/-- C7: the sweep at time `now` removes exactly the registry workspaces
whose inactivity exceeds the TTL; each removed workspace's subscribers
are all closed with the distinct code 4002 / reason "Workspace expired";
registry workspaces within the TTL survive unchanged, and the default
workspace (not part of the registry) is untouched. -/
theorem sweep_spec (s : BrokerState) (now : Nat) :
    ((sweep s now).1.workspaces =
       s.workspaces.filter (fun p => now - p.2.lastActivity ≤ WORKSPACE_TTL_MS)) ∧
    (∀ t ws, (t, ws) ∈ s.workspaces → now - ws.lastActivity > WORKSPACE_TTL_MS →
       ((t, ws) ∉ (sweep s now).1.workspaces ∧
        ∀ c ∈ ws.wsClients,
          CloseSignal.mk c 4002 "Workspace expired" ∈ (sweep s now).2)) ∧
    (∀ t ws, (t, ws) ∈ s.workspaces → now - ws.lastActivity ≤ WORKSPACE_TTL_MS →
       (t, ws) ∈ (sweep s now).1.workspaces) ∧
    ((sweep s now).1.globalWorkspace = s.globalWorkspace) := by
  obtain ⟨l', closes, hrec⟩ : ∃ l' closes, cleanupWorkspaces s.workspaces now = (l', closes) :=
    ⟨_, _, rfl⟩
  obtain ⟨h1, h2⟩ := cleanupWorkspaces_spec s.workspaces now
  rw [hrec] at h1 h2
  have h1' : l' = s.workspaces.filter (fun p => now - p.2.lastActivity ≤ WORKSPACE_TTL_MS) := h1
  have h2' : ∀ t ws, (t, ws) ∈ s.workspaces → now - ws.lastActivity > WORKSPACE_TTL_MS →
      ∀ c ∈ ws.wsClients, CloseSignal.mk c 4002 "Workspace expired" ∈ closes :=
    fun t ws hm he c hc => h2 t ws hm he c hc
  have hsw : sweep s now = ({ s with workspaces := l' }, closes) := by
    simp [sweep, hrec]
  refine ⟨by rw [hsw]; exact h1', ?_, ?_, by rw [hsw]⟩
  · intro t ws hmem hexp
    refine ⟨?_, fun c hc => by rw [hsw]; exact h2' t ws hmem hexp c hc⟩
    rw [hsw]
    intro habs
    have habs' : (t, ws) ∈ l' := habs
    rw [h1'] at habs'
    have hle := (List.mem_filter.mp habs').2
    simp only [decide_eq_true_eq] at hle
    omega
  · intro t ws hmem hfresh
    rw [hsw]
    show (t, ws) ∈ l'
    rw [h1']
    exact List.mem_filter.mpr ⟨hmem, decide_eq_true hfresh⟩

def wExp : Workspace := { createWorkspace 0 with wsClients := [7] }
def wFresh : Workspace := { createWorkspace 0 with lastActivity := 1 }

def sExp : BrokerState :=
  { workspaces := [("moh_e", wExp), ("moh_f", wFresh)], globalWorkspace := w0,
    createRateLimit := ⟨0, 0⟩ }

/-- Witness for C7 at a concrete state: at `TTL + 1` the idle workspace is
gone, its subscriber is closed with code 4002 "Workspace expired", the
fresh one survives. -/
theorem sweep_spec_witness :
    (("moh_e", wExp) ∉ (sweep sExp (WORKSPACE_TTL_MS + 1)).1.workspaces) ∧
    (CloseSignal.mk 7 4002 "Workspace expired" ∈ (sweep sExp (WORKSPACE_TTL_MS + 1)).2) ∧
    (("moh_f", wFresh) ∈ (sweep sExp (WORKSPACE_TTL_MS + 1)).1.workspaces) := by
  have h := sweep_spec sExp (WORKSPACE_TTL_MS + 1)
  have hmemE : ("moh_e", wExp) ∈ sExp.workspaces := by simp [sExp]
  have hmemF : ("moh_f", wFresh) ∈ sExp.workspaces := by simp [sExp]
  have hexp : WORKSPACE_TTL_MS + 1 - wExp.lastActivity > WORKSPACE_TTL_MS := by
    simp [wExp, createWorkspace]
  have hfresh : WORKSPACE_TTL_MS + 1 - wFresh.lastActivity ≤ WORKSPACE_TTL_MS := by
    simp [wFresh, createWorkspace]
  obtain ⟨habs, hclose⟩ := h.2.1 "moh_e" wExp hmemE hexp
  exact ⟨habs, hclose 7 (by simp [wExp]), h.2.2.1 "moh_f" wFresh hmemF hfresh⟩

/-! ## C8 -/

/-- Within one window (no request time past `resetAt`), the i-th check
admits iff the running count stays below the quota. -/
theorem runLimiter_counts (ts : List Nat) : ∀ rl : RateLimit,
    (∀ t ∈ ts, t ≤ rl.resetAt) →
    ∀ i, i < ts.length →
      (runLimiter rl ts).1[i]? = some (decide (rl.count + i < RATE_LIMIT_MAX)) := by
  induction ts with
  | nil =>
    intro rl _ i hi
    simp at hi
  | cons t ts ih =>
    intro rl hin i hi
    have ht : t ≤ rl.resetAt := hin t (List.mem_cons_self t ts)
    have hnr : ¬(t > rl.resetAt) := by omega
    by_cases hc : rl.count ≥ RATE_LIMIT_MAX
    · have hcheck : checkCreateRateLimit rl t = (false, rl) := by
        simp [checkCreateRateLimit, if_neg hnr, hc]
      obtain ⟨bs, rl2, hrun⟩ : ∃ bs rl2, runLimiter rl ts = (bs, rl2) := ⟨_, _, rfl⟩
      simp only [runLimiter, hcheck, hrun]
      cases i with
      | zero =>
        simp only [List.getElem?_cons_zero, Option.some.injEq]
        symm
        simp only [decide_eq_false_iff_not]
        omega
      | succ j =>
        have hj : j < ts.length := by simpa using hi
        have hih := ih rl (fun x hx => hin x (List.mem_cons_of_mem t hx)) j hj
        rw [hrun] at hih
        simp only [List.getElem?_cons_succ]
        rw [hih]
        congr 1
        rw [decide_eq_decide]
        omega
    · have hcheck : checkCreateRateLimit rl t = (true, { rl with count := rl.count + 1 }) := by
        simp [checkCreateRateLimit, if_neg hnr, hc]
      obtain ⟨bs, rl2, hrun⟩ :
          ∃ bs rl2, runLimiter { rl with count := rl.count + 1 } ts = (bs, rl2) := ⟨_, _, rfl⟩
      simp only [runLimiter, hcheck, hrun]
      cases i with
      | zero =>
        simp only [List.getElem?_cons_zero, Option.some.injEq]
        symm
        simp only [decide_eq_true_eq]
        omega
      | succ j =>
        have hj : j < ts.length := by simpa using hi
        have hih := ih { rl with count := rl.count + 1 }
          (fun x hx => hin x (List.mem_cons_of_mem t hx)) j hj
        rw [hrun] at hih
        have hcnt : ({ rl with count := rl.count + 1 } : RateLimit).count = rl.count + 1 := rfl
        rw [hcnt] at hih
        simp only [List.getElem?_cons_succ]
        rw [hih]
        congr 1
        rw [decide_eq_decide]
        omega

/-- C8: in a fresh window (counter zero, all requests at or before the
window expiry) the i-th creation request is admitted iff `i < limit` — so
the first `limit` are admitted and the `(limit+1)`-th is denied; a denied
creation answers `RateLimited`; and once the current time passes the
window expiry the counter zeroes, so a fresh creation succeeds and starts
a new window. -/
theorem createRateLimit_window (rl : RateLimit) (ts : List Nat) (s : BrokerState)
    (tok : String) (now : Nat) :
    (rl.count = 0 → (∀ t ∈ ts, t ≤ rl.resetAt) →
      ∀ i, i < ts.length →
        (runLimiter rl ts).1[i]? = some (decide (i < RATE_LIMIT_MAX))) ∧
    (s.createRateLimit.count ≥ RATE_LIMIT_MAX → now ≤ s.createRateLimit.resetAt →
      postWorkspaces s tok now = (Response.rateLimited, s)) ∧
    (now > s.createRateLimit.resetAt →
      postWorkspaces s tok now =
        (Response.created tok,
         { s with
             createRateLimit := ⟨1, now + RATE_LIMIT_WINDOW_MS⟩,
             workspaces := setAssoc s.workspaces tok (createWorkspace now) })) := by
  refine ⟨?_, ?_, ?_⟩
  · intro h0 hin i hi
    have hr := runLimiter_counts ts rl hin i hi
    rw [hr, h0]
    simp
  · intro hc hnow
    have hnr : ¬(now > s.createRateLimit.resetAt) := by omega
    have hcheck : checkCreateRateLimit s.createRateLimit now = (false, s.createRateLimit) := by
      simp [checkCreateRateLimit, if_neg hnr, hc]
    simp [postWorkspaces, hcheck]
  · intro hnow
    have hcheck : checkCreateRateLimit s.createRateLimit now =
        (true, ⟨1, now + RATE_LIMIT_WINDOW_MS⟩) := by
      simp only [checkCreateRateLimit, if_pos hnow]
      norm_num [RATE_LIMIT_MAX]
    simp [postWorkspaces, hcheck]

def rlW : RateLimit := ⟨0, 1000⟩

/-- Witness for C8 at concrete inputs: 21 in-window requests, the 21st
(index 20) is denied while the 1st is admitted; a request after the
window expiry succeeds. -/
theorem createRateLimit_window_witness :
    (runLimiter rlW (List.replicate 21 500)).1[20]? = some (decide (20 < RATE_LIMIT_MAX)) ∧
    (runLimiter rlW (List.replicate 21 500)).1[0]? = some (decide (0 < RATE_LIMIT_MAX)) ∧
    postWorkspaces s0 "moh_b" 7 =
      (Response.created "moh_b",
       { s0 with
           createRateLimit := ⟨1, 7 + RATE_LIMIT_WINDOW_MS⟩,
           workspaces := setAssoc s0.workspaces "moh_b" (createWorkspace 7) }) :=
  ⟨(createRateLimit_window rlW (List.replicate 21 500) s0 "moh_b" 7).1 rfl (by decide)
      20 (by decide),
   (createRateLimit_window rlW (List.replicate 21 500) s0 "moh_b" 7).1 rfl (by decide)
      0 (by decide),
   (createRateLimit_window rlW (List.replicate 21 500) s0 "moh_b" 7).2.2 (by decide)⟩

/-! ## C4 -/

/-- C4: the query path: with only `since_seq = k` it returns exactly the
retained events of sequence strictly greater than `k`, in order; a
positive `limit = L` caps the result at the last `L` matching events,
the result always being a suffix of the filtered list (chronological
order preserved); an empty match yields the empty list, never an error;
and GET /api/events applies exactly this pipeline to the snapshot of the
resolved workspace's store. -/
theorem queryEvents_spec (evs : List StoredEvent) (q : Query) (k L : Nat)
    (s : BrokerState) (token : Option String) (now : Nat) :
    (queryEvents evs { Query.empty with since_seq := some k } =
       evs.filter (fun e => k < e.seq)) ∧
    (q.limit = some L → 0 < L → (queryEvents evs q).length ≤ L) ∧
    (queryEvents evs q <:+ applyFilters evs q) ∧
    (applyFilters evs q = [] → queryEvents evs q = []) ∧
    (∀ kw : WsKey × Workspace, ∀ s', resolveWorkspace s token now = (some kw, s') →
       getEvents s token q now =
         (Response.queryResult (queryEvents kw.2.events.toArray q), s')) := by
  have hsuffix : queryEvents evs q <:+ applyFilters evs q := by
    rw [queryEvents]
    cases q.limit with
    | none => exact List.suffix_refl _
    | some n =>
      by_cases hn : 0 < n
      · simp only [if_pos hn]
        exact List.drop_suffix _ _
      · simp only [if_neg hn]
        exact List.suffix_refl _
  refine ⟨rfl, ?_, hsuffix, ?_, ?_⟩
  · intro hl hL
    rw [queryEvents, hl]
    simp only [if_pos hL, List.length_drop]
    omega
  · intro hempty
    have := hsuffix
    rw [hempty] at this
    exact List.suffix_nil.mp this
  · rintro ⟨kk, ww⟩ s' h
    simp only [getEvents]
    rw [h]

def ev1 : StoredEvent := mkStoredEvent sampleRaw "t1" 1
def ev2 : StoredEvent := mkStoredEvent sampleRaw "t2" 2

/-- Witness for C4 at concrete inputs: a limit-1 query over two events
returns at most one, and the no-token GET answers the query over the
default workspace's snapshot. -/
theorem queryEvents_spec_witness :
    (queryEvents [ev1, ev2] { Query.empty with limit := some 1 }).length ≤ 1 ∧
    getEvents s0 none { Query.empty with limit := some 1 } 5 =
      (Response.queryResult
        (queryEvents w0.events.toArray { Query.empty with limit := some 1 }), s0) :=
  ⟨(queryEvents_spec [ev1, ev2] { Query.empty with limit := some 1 } 0 1 s0 none 5).2.1
      rfl (by decide),
   (queryEvents_spec w0.events.toArray { Query.empty with limit := some 1 } 0 1 s0 none 5).2.2.2.2
      (WsKey.global, w0) s0 rfl⟩

/-! ## C3 -/

/-- Fan-out only ever delivers to members of the subscriber set it was
given. -/
theorem broadcast_deliveries_mem (dead : List Nat) (clients : List Nat) (e : StoredEvent) :
    ∀ c ev, (c, ev) ∈ (broadcastToWorkspace dead clients e).2 → c ∈ clients := by
  induction clients with
  | nil =>
    intro c ev h
    simp [broadcastToWorkspace] at h
  | cons a r ih =>
    intro c ev h
    obtain ⟨r', ds, hrec⟩ : ∃ r' ds, broadcastToWorkspace dead r e = (r', ds) := ⟨_, _, rfl⟩
    by_cases hd : a ∈ dead
    · simp only [broadcastToWorkspace, hrec, if_pos hd] at h
      exact List.mem_cons_of_mem a (ih c ev (by rw [hrec]; exact h))
    · simp only [broadcastToWorkspace, hrec, if_neg hd] at h
      rcases List.mem_cons.mp h with heq | hmem
      · obtain ⟨h1, h2⟩ := Prod.mk.injEq .. ▸ heq
        rw [h1]
        exact List.mem_cons_self a r
      · exact List.mem_cons_of_mem a (ih c ev (by rw [hrec]; exact hmem))

/-- C3: fan-out isolation: after an ingestion resolving to workspace B,
every delivery goes to a member of B's subscriber set; hence a subscriber
admitted into a different workspace A (and not a member of B's set) never
receives an event ingested into B.  Moreover admitting a subscriber only
ever touches the workspace it resolved to, so the subscriber sets of
distinct workspaces stay disjoint. -/
theorem subscriber_isolation (s : BrokerState) (dead : List Nat) (token : Option String)
    (b : RawEvent) (now : Nat) (iso : String) (kB : WsKey) (wsB : Workspace) (s' : BrokerState)
    (hres : resolveWorkspace s token now = (some (kB, wsB), s')) :
    (∀ c e, (c, e) ∈ (postEvent s dead token (some b) now iso).2.2 → c ∈ wsB.wsClients) ∧
    (∀ kA wsA c, wsAt s kA = some wsA → c ∈ wsA.wsClients → kA ≠ kB →
       c ∉ wsB.wsClients → ∀ e, (c, e) ∉ (postEvent s dead token (some b) now iso).2.2) ∧
    (∀ c k s₂, subscribe s token c now = (some k, s₂) → ∀ k', k' ≠ k →
       wsAt s₂ k' = wsAt s k') := by
  have hpost := postEvent_state s dead token b now iso kB wsB s' hres
  have hdel : ∀ c e, (c, e) ∈ (postEvent s dead token (some b) now iso).2.2 →
      c ∈ wsB.wsClients := by
    intro c e hmem
    rw [hpost] at hmem
    exact broadcast_deliveries_mem dead (wsIngest wsB b iso).1.wsClients (wsIngest wsB b iso).2
      c e hmem
  refine ⟨hdel, ?_, ?_⟩
  · intro kA wsA c hA hcA hne hcB e hmem
    exact hcB (hdel c e hmem)
  · intro c k s₂ hsub k' hk'
    simp only [subscribe] at hsub
    rw [hres] at hsub
    simp only [Option.some.injEq, Prod.mk.injEq] at hsub
    obtain ⟨hk, hs⟩ := hsub
    rw [← hs]
    rw [← hk] at hk'
    rw [wsAt_updWs_other s' kB k' _ hk']
    exact resolveWorkspace_preserves_other s token now kB wsB s' hres k' hk'

def wA : Workspace := { createWorkspace 0 with wsClients := [5] }

def sC3 : BrokerState :=
  { workspaces := [("moh_a", w0)], globalWorkspace := wA, createRateLimit := ⟨0, 0⟩ }

/-- Witness for C3 at a concrete state: subscriber 5 of the default
workspace receives nothing from an ingestion into workspace `moh_a`. -/
theorem subscriber_isolation_witness :
    (5, ev1) ∉ (postEvent sC3 [] (some "moh_a") (some sampleRaw) 9 "iso").2.2 :=
  (subscriber_isolation sC3 [] (some "moh_a") sampleRaw 9 "iso" (WsKey.tok "moh_a")
      { w0 with lastActivity := 9 } _ rfl).2.1 WsKey.global wA 5 rfl
    (by simp [wA]) (by simp) (by simp [w0, createWorkspace]) ev1

/-! ## C1 (amended) -/

/-- Unfolding one step of a run of ingestions. -/
theorem ingestList_cons (ws : Workspace) (b : RawEvent) (iso : String)
    (r : List (RawEvent × String)) :
    ingestList ws ((b, iso) :: r) =
      ((ingestList (wsIngest ws b iso).1 r).1,
       (wsIngest ws b iso).2 :: (ingestList (wsIngest ws b iso).1 r).2) := rfl

/-- Sequencing a run of ingestions: the counter advances by one per event
and the i-th stored event gets sequence `seq₀ + i + 1`. -/
theorem ingestList_seq (bs : List (RawEvent × String)) : ∀ ws : Workspace,
    (ingestList ws bs).1.seq = ws.seq + bs.length ∧
    ∀ i, i < bs.length →
      ((ingestList ws bs).2.map StoredEvent.seq)[i]? = some (ws.seq + i + 1) := by
  induction bs with
  | nil =>
    intro ws
    exact ⟨rfl, fun i hi => by simp at hi⟩
  | cons p r ih =>
    intro ws
    obtain ⟨b, iso⟩ := p
    rw [ingestList_cons]
    obtain ⟨ih1, ih2⟩ := ih (wsIngest ws b iso).1
    have hseq : (wsIngest ws b iso).1.seq = ws.seq + 1 := rfl
    constructor
    · rw [ih1, hseq, List.length_cons]
      omega
    · intro i hi
      cases i with
      | zero =>
        simp only [List.map_cons, List.getElem?_cons_zero, Option.some.injEq]
        show ws.seq + 1 = ws.seq + 0 + 1
        omega
      | succ j =>
        have hj : j < r.length := by simpa using hi
        have h := ih2 j hj
        rw [hseq] at h
        simp only [List.map_cons, List.getElem?_cons_succ]
        rw [h]
        congr 1
        omega

/-- C1 (amended): every stored event carries a broker-assigned sequence:
the counter advances by exactly one per ingestion, the i-th event of a
run from a fresh workspace gets sequence `i + 1` (so sequences are
`1..N`: unique and strictly increasing, starting at 1); the stored
timestamp is the producer's when present and non-empty, and the broker's
ingestion time otherwise; and an ingestion resolving to one workspace
leaves every other workspace — in particular its sequence counter —
untouched, so two workspaces' counters never interact. -/
theorem sequencer_spec (ws : Workspace) (bs : List (RawEvent × String))
    (s : BrokerState) (dead : List Nat) (token : Option String) (b : RawEvent)
    (now i : Nat) (iso t0 : String) :
    ((ingestList ws bs).1.seq = ws.seq + bs.length) ∧
    (i < bs.length →
      ((ingestList ws bs).2.map StoredEvent.seq)[i]? = some (ws.seq + i + 1)) ∧
    (ws.seq = 0 → i < bs.length →
      ((ingestList ws bs).2.map StoredEvent.seq)[i]? = some (i + 1)) ∧
    (b.timestamp = some t0 → t0 ≠ "" → (wsIngest ws b iso).2.timestamp = t0) ∧
    ((b.timestamp = none ∨ b.timestamp = some "") → (wsIngest ws b iso).2.timestamp = iso) ∧
    (∀ kB wsB s', resolveWorkspace s token now = (some (kB, wsB), s') →
      ∀ k', k' ≠ kB →
        wsAt (postEvent s dead token (some b) now iso).2.1 k' = wsAt s k') := by
  obtain ⟨h1, h2⟩ := ingestList_seq bs ws
  refine ⟨h1, fun hi => h2 i hi, ?_, ?_, ?_, ?_⟩
  · intro h0 hi
    have := h2 i hi
    rw [h0] at this
    rw [this]
    congr 1
    omega
  · intro hts hne
    simp [wsIngest, mkStoredEvent, jsOr, hts, hne]
  · intro hts
    rcases hts with hts | hts <;> simp [wsIngest, mkStoredEvent, jsOr, hts]
  · intro kB wsB s' hres k' hk'
    rw [postEvent_state s dead token b now iso kB wsB s' hres]
    rw [wsAt_updWs_other s' kB k' _ hk']
    exact resolveWorkspace_preserves_other s token now kB wsB s' hres k' hk'

/-- Witness for C1 at concrete inputs: two ingestions from a fresh
workspace get sequences 1 and 2; a non-empty producer timestamp is kept;
an ingestion into `moh_a` leaves the default workspace untouched. -/
theorem sequencer_spec_witness :
    ((ingestList (createWorkspace 0) [(sampleRaw, "t1"), (sampleRaw, "t2")]).2.map
        StoredEvent.seq)[1]? = some 2 ∧
    (wsIngest w0 { sampleRaw with timestamp := some "x" } "iso").2.timestamp = "x" ∧
    wsAt (postEvent sC3 [] (some "moh_a") (some sampleRaw) 9 "iso").2.1 WsKey.global =
      wsAt sC3 WsKey.global :=
  ⟨(sequencer_spec (createWorkspace 0) [(sampleRaw, "t1"), (sampleRaw, "t2")] s0 []
        none sampleRaw 0 1 "iso" "x").2.2.1 rfl (by decide),
   (sequencer_spec w0 [] s0 [] none { sampleRaw with timestamp := some "x" } 0 0
        "iso" "x").2.2.2.1 rfl (by decide),
   (sequencer_spec w0 [] sC3 [] (some "moh_a") sampleRaw 9 0 "iso" "x").2.2.2.2.2
      (WsKey.tok "moh_a") { w0 with lastActivity := 9 } _ rfl WsKey.global (by simp)⟩

/-- C1 counterexample: a producer event whose timestamp field is present
but empty (`""`) is stored with the broker's ingestion timestamp, not the
producer's — refuting the claim that a present producer timestamp is
always taken. -/
theorem sequencer_spec_counterexample :
    (wsIngest w0 { sampleRaw with timestamp := some "" } "2024-01-01T00:00:00Z").2.timestamp =
      "2024-01-01T00:00:00Z" ∧
    ¬((wsIngest w0 { sampleRaw with timestamp := some "" }
        "2024-01-01T00:00:00Z").2.timestamp = "") :=
  ⟨rfl, by decide⟩

/-! ## C2 -/

theorem reduceOption_map_some {α : Type} (l : List α) : (l.map some).reduceOption = l := by
  induction l with
  | nil => rfl
  | cons a r ih => simp [List.reduceOption_cons_of_some, ih]

/-- Invariant of a buffer built by pushing `l` into a fresh buffer of
capacity `C`: the head is the push count mod `C`, the count saturates at
`C`, and slot `i % C` holds the i-th pushed element for every index `i`
of the retained suffix. -/
theorem pushAll_inv {α : Type} (C : Nat) (hC : 0 < C) (l : List α) :
    (CircularBuffer.pushAll (CircularBuffer.empty α C) l).capacity = C ∧
    (CircularBuffer.pushAll (CircularBuffer.empty α C) l).head = l.length % C ∧
    (CircularBuffer.pushAll (CircularBuffer.empty α C) l).count = min l.length C ∧
    ∀ j, j < min l.length C →
      (CircularBuffer.pushAll (CircularBuffer.empty α C) l).buf
          ((l.length - min l.length C + j) % C) =
        l[l.length - min l.length C + j]? := by
  induction l using List.reverseRecOn with
  | nil =>
    refine ⟨rfl, by simp [CircularBuffer.pushAll, CircularBuffer.empty], ?_, ?_⟩
    · simp [CircularBuffer.pushAll, CircularBuffer.empty]
    · intro j hj
      simp at hj
  | append_singleton l a ih =>
    obtain ⟨hcap, hhead, hcount, hbuf⟩ := ih
    have hstep : CircularBuffer.pushAll (CircularBuffer.empty α C) (l ++ [a]) =
        (CircularBuffer.pushAll (CircularBuffer.empty α C) l).push a := by
      simp [CircularBuffer.pushAll, List.foldl_append]
    rw [hstep]
    have hlen : (l ++ [a]).length = l.length + 1 := by simp
    refine ⟨by simp [CircularBuffer.push, hcap], ?_, ?_, ?_⟩
    · simp only [CircularBuffer.push, hcap, hhead, hlen]
      exact Nat.mod_add_mod l.length C 1
    · simp only [CircularBuffer.push, hcap, hcount, hlen]
      split <;> omega
    · intro j hj
      rw [hlen] at hj
      rw [hlen]
      have hc1 : 1 ≤ min (l.length + 1) C := by omega
      by_cases hlast : j = min (l.length + 1) C - 1
      · have hi : l.length + 1 - min (l.length + 1) C + j = l.length := by omega
        rw [hi]
        simp only [CircularBuffer.push]
        rw [hhead, if_pos rfl]
        exact (List.getElem?_concat_length l a).symm
      · have hilt : l.length + 1 - min (l.length + 1) C + j < l.length := by omega
        have hne : ¬((l.length + 1 - min (l.length + 1) C + j) % C = l.length % C) := by
          intro heq
          have hdvd : C ∣ l.length - (l.length + 1 - min (l.length + 1) C + j) :=
            (Nat.modEq_iff_dvd' (Nat.le_of_lt hilt)).mp heq
          have hlb := Nat.le_of_dvd (by omega) hdvd
          omega
        simp only [CircularBuffer.push]
        rw [hhead, if_neg hne]
        have hj' : l.length + 1 - min (l.length + 1) C + j - (l.length - min l.length C) <
            min l.length C := by omega
        have hb := hbuf _ hj'
        have hidx : l.length - min l.length C +
            (l.length + 1 - min (l.length + 1) C + j - (l.length - min l.length C)) =
            l.length + 1 - min (l.length + 1) C + j := by omega
        rw [hidx] at hb
        rw [hb]
        exact (List.getElem?_append_left hilt).symm

/-- The snapshot of any buffer satisfying the push invariant is the
retained suffix of the pushed list, in insertion order. -/
theorem toArray_of_inv {α : Type} (cb : CircularBuffer α) (C : Nat) (l : List α)
    (hC : 0 < C) (hcap : cb.capacity = C) (hhead : cb.head = l.length % C)
    (hcount : cb.count = min l.length C)
    (hbuf : ∀ j, j < min l.length C →
      cb.buf ((l.length - min l.length C + j) % C) = l[l.length - min l.length C + j]?) :
    cb.toArray = l.drop (l.length - C) := by
  rw [CircularBuffer.toArray, hcount, hcap]
  by_cases h0 : min l.length C = 0
  · rw [if_pos h0]
    have hl : l = [] := List.length_eq_zero.mp (by omega)
    subst hl
    simp
  · rw [if_neg h0]
    by_cases hlt : min l.length C < C
    · rw [if_pos hlt]
      have hmn : min l.length C = l.length := by omega
      rw [hmn]
      have hmap : (List.range l.length).map cb.buf = l.map some := by
        apply List.ext_getElem?
        intro i
        rw [List.getElem?_map, List.getElem?_map]
        by_cases hi : i < l.length
        · rw [List.getElem?_range hi, List.getElem?_eq_getElem hi]
          simp only [Option.map_some']
          have hb := hbuf i (by omega)
          rw [hmn] at hb
          have hidx : l.length - l.length + i = i := by omega
          rw [hidx, Nat.mod_eq_of_lt (by omega)] at hb
          rw [hb, List.getElem?_eq_getElem hi]
        · rw [List.getElem?_eq_none (by simpa using hi), List.getElem?_eq_none (by omega)]
          rfl
      rw [hmap, reduceOption_map_some]
      have hz : l.length - C = 0 := by omega
      rw [hz, List.drop_zero]
    · rw [if_neg hlt]
      have hmn : min l.length C = C := by omega
      have hCn : C ≤ l.length := by omega
      have hhlt : l.length % C < C := Nat.mod_lt _ hC
      have hhdlt : cb.head < C := by rw [hhead]; exact hhlt
      have hmap : ((List.range (C - cb.head)).map (fun j => cb.buf (cb.head + j)) ++
            (List.range cb.head).map cb.buf) = (l.drop (l.length - C)).map some := by
        apply List.ext_getElem?
        intro i
        by_cases hi : i < C
        · have hslot : ((List.range (C - cb.head)).map (fun j => cb.buf (cb.head + j)) ++
              (List.range cb.head).map cb.buf)[i]? = some (cb.buf ((cb.head + i) % C)) := by
            by_cases hfirst : i < C - cb.head
            · rw [List.getElem?_append_left (by simp only [List.length_map, List.length_range]; omega)]
              rw [List.getElem?_map, List.getElem?_range hfirst]
              rw [Nat.mod_eq_of_lt (by omega)]
              rfl
            · rw [List.getElem?_append_right (by simp only [List.length_map, List.length_range]; omega)]
              rw [List.getElem?_map]
              simp only [List.length_map, List.length_range]
              have hidx2 : i - (C - cb.head) < cb.head := by omega
              rw [List.getElem?_range hidx2]
              have hm : (cb.head + i) % C = i - (C - cb.head) := by
                rw [Nat.mod_eq_sub_mod (by omega), Nat.mod_eq_of_lt (by omega)]
                omega
              rw [hm]
              rfl
          rw [hslot]
          have hm2 : (cb.head + i) % C = (l.length - C + i) % C := by
            rw [hhead, Nat.mod_add_mod]
            have he : l.length + i = l.length - C + i + C := by omega
            rw [he, Nat.add_mod_right]
          rw [hm2]
          have hb := hbuf i (by omega)
          rw [hmn] at hb
          rw [hb]
          have hlt2 : l.length - C + i < l.length := by omega
          rw [List.getElem?_map, List.getElem?_drop]
          rw [List.getElem?_eq_getElem hlt2]
          simp
        · have hlen1 : ((List.range (C - cb.head)).map (fun j => cb.buf (cb.head + j)) ++
              (List.range cb.head).map cb.buf).length = C := by
            simp only [List.length_append, List.length_map, List.length_range]
            omega
          rw [List.getElem?_eq_none (by rw [hlen1]; omega),
              List.getElem?_eq_none (by simp only [List.length_map, List.length_drop]; omega)]
      rw [hmap, reduceOption_map_some]

/-- C2: `snapshot()` of a capacity-`C` store (`C ≥ 1`) after pushing the
events of `l` (oldest first) is exactly the most recent `min l.length C`
events in their original insertion order: the suffix of `l` with the
oldest `l.length - C` absent, read tail-then-head when the buffer has
wrapped. -/
theorem snapshot_spec {α : Type} (C : Nat) (hC : 0 < C) (l : List α) :
    (CircularBuffer.pushAll (CircularBuffer.empty α C) l).toArray =
      l.drop (l.length - C) ∧
    (CircularBuffer.pushAll (CircularBuffer.empty α C) l).toArray.length =
      min l.length C := by
  obtain ⟨hcap, hhead, hcount, hbuf⟩ := pushAll_inv C hC l
  have hmain := toArray_of_inv _ C l hC hcap hhead hcount hbuf
  refine ⟨hmain, ?_⟩
  rw [hmain, List.length_drop]
  omega

/-- Witness for C2 at concrete inputs (the spec's own example):
capacity 3, five pushes, the snapshot is the last three events in order. -/
theorem snapshot_spec_witness :
    (0 : Nat) < 3 ∧
    (CircularBuffer.pushAll (CircularBuffer.empty StoredEvent 3)
        [mkStoredEvent sampleRaw "e" 1, mkStoredEvent sampleRaw "e" 2,
         mkStoredEvent sampleRaw "e" 3, mkStoredEvent sampleRaw "e" 4,
         mkStoredEvent sampleRaw "e" 5]).toArray =
      [mkStoredEvent sampleRaw "e" 3, mkStoredEvent sampleRaw "e" 4,
       mkStoredEvent sampleRaw "e" 5] :=
  ⟨by decide,
    (snapshot_spec 3 (by decide)
        [mkStoredEvent sampleRaw "e" 1, mkStoredEvent sampleRaw "e" 2,
         mkStoredEvent sampleRaw "e" 3, mkStoredEvent sampleRaw "e" 4,
         mkStoredEvent sampleRaw "e" 5]).1⟩

end Mohano
